import Mathlib

/-
Verification of the in-memory filesystem core of the llmfs repository.

The Python sources model filesystem nodes as string-keyed dictionaries held
in a path-indexed mapping.  We embed those dictionaries as association
lists; every reachable dictionary has pairwise-distinct keys, so removing
every binding of a key (alPop) coincides with Python's `del d[k]` /
`d.pop(k, None)`, and updating the first binding (alSet) coincides with
`d[k] = v`.

Python strings are embedded as lists of Unicode code points (`List Nat`)
and byte strings as lists of byte values (`List Nat`).  The sources store
file content as a `str` and convert with `content.encode("utf-8")` /
`data.decode("utf-8")`; the encoder and a strict decoder (rejecting
overlong forms, surrogates and out-of-range lead bytes, as CPython does)
are embedded below, because the character/byte distinction is observable
through `read`, `write` and `getattr`.
-/

/-- Association-list lookup, embedding Python `d.get(k)` / `d[k]`. -/
def alGet {κ α : Type} [DecidableEq κ] : List (κ × α) → κ → Option α
  | [], _ => none
  | (k, v) :: rest, key => if k = key then some v else alGet rest key

/-- Association-list update, embedding Python `d[k] = v`. -/
def alSet {κ α : Type} [DecidableEq κ] : List (κ × α) → κ → α → List (κ × α)
  | [], key, val => [(key, val)]
  | (k, v) :: rest, key, val =>
      if k = key then (k, val) :: rest else (k, v) :: alSet rest key val

/-- Association-list removal, embedding Python `del d[k]` / `d.pop(k, None)`.
Removes every binding of the key; on the duplicate-free lists produced by
the operations this is the single-binding removal a dict performs. -/
def alPop {κ α : Type} [DecidableEq κ] : List (κ × α) → κ → List (κ × α)
  | [], _ => []
  | (k, v) :: rest, key =>
      if k = key then alPop rest key else (k, v) :: alPop rest key

/-- UTF-8 encoding of a single code point, embedding CPython's
`str.encode("utf-8")` byte layout. -/
def utf8Bytes (c : Nat) : List Nat :=
  if c < 128 then [c]
  else if c < 2048 then [192 + c / 64, 128 + c % 64]
  else if c < 65536 then [224 + c / 4096, 128 + c / 64 % 64, 128 + c % 64]
  else [240 + c / 262144, 128 + c / 4096 % 64, 128 + c / 64 % 64, 128 + c % 64]

/-- UTF-8 encoding of a code-point string, embedding `s.encode("utf-8")`. -/
def utf8Encode : List Nat → List Nat
  | [] => []
  | c :: cs => utf8Bytes c ++ utf8Encode cs

/-- One step of strict UTF-8 decoding: reads a single code point off the
front of the byte string, rejecting stray continuation bytes, overlong
forms, surrogates and values above 0x10FFFF, as CPython's
`bytes.decode("utf-8")` does. -/
def utf8Step : List Nat → Option (Nat × List Nat)
  | [] => none
  | b :: rest =>
    if b < 128 then some (b, rest)
    else if b < 194 then none
    else if b < 224 then
      match rest with
      | b1 :: r =>
          if 128 ≤ b1 ∧ b1 < 192 then some ((b - 192) * 64 + (b1 - 128), r) else none
      | [] => none
    else if b < 240 then
      match rest with
      | b1 :: b2 :: r =>
          if (128 ≤ b1 ∧ b1 < 192) ∧ (128 ≤ b2 ∧ b2 < 192) ∧
             (224 < b ∨ 160 ≤ b1) ∧ (b ≠ 237 ∨ b1 < 160) then
            some ((b - 224) * 4096 + (b1 - 128) * 64 + (b2 - 128), r)
          else none
      | _ => none
    else if b < 245 then
      match rest with
      | b1 :: b2 :: b3 :: r =>
          if (128 ≤ b1 ∧ b1 < 192) ∧ (128 ≤ b2 ∧ b2 < 192) ∧ (128 ≤ b3 ∧ b3 < 192) ∧
             (240 < b ∨ 144 ≤ b1) ∧ (b ≠ 244 ∨ b1 < 144) then
            some ((b - 240) * 262144 + (b1 - 128) * 4096 + (b2 - 128) * 64 + (b3 - 128), r)
          else none
      | _ => none
    else none

/-- Fuel-indexed decoding loop; the fuel is an upper bound on the number of
code points and never runs out when initialised with the byte length. -/
def utf8DecodeAux : Nat → List Nat → Option (List Nat)
  | _, [] => some []
  | 0, _ :: _ => none
  | fuel + 1, l =>
      match utf8Step l with
      | some (c, r) => (utf8DecodeAux fuel r).map (fun cs => c :: cs)
      | none => none

/-- Strict UTF-8 decoding of a whole byte string, embedding
`bytes.decode("utf-8")`; `none` embeds a raised `UnicodeDecodeError`. -/
def utf8Decode (l : List Nat) : Option (List Nat) :=
  utf8DecodeAux l.length l

/-- Decimal digits of a number, most significant first; the fuel is
initialised with `n + 1` and never runs out since `n / 10` strictly
decreases. -/
def natStrAux : Nat → Nat → List Char
  | 0, _ => []
  | fuel + 1, n =>
      if n < 10 then [Char.ofNat (48 + n)]
      else natStrAux fuel (n / 10) ++ [Char.ofNat (48 + n % 10)]

/-- Python `str(n)` for the nonnegative integers the sources store. -/
def natStr (n : Nat) : String := String.mk (natStrAux (n + 1) n)

/-- Python `int(s)` restricted to the nonnegative decimal strings the
sources store; any other string raises ValueError (`none`). -/
def parsePyInt (s : String) : Option Nat :=
  if s.data ≠ [] ∧ s.data.all (fun c => 48 ≤ c.toNat ∧ c.toNat ≤ 57) then
    some (s.data.foldl (fun acc c => acc * 10 + (c.toNat - 48)) 0)
  else none

/-- Index one past the last `/`, embedding Python `p.rfind("/") + 1`
(0 when there is no slash). -/
def lastSlashIdx (cs : List Char) : Nat :=
  (cs.foldl (fun (acc : Nat × Nat) c =>
    (if c = '/' then acc.2 + 1 else acc.1, acc.2 + 1)) (0, 0)).1

/-- Drop trailing slashes, embedding Python `head.rstrip("/")`. -/
def dropTrailingSlashes (cs : List Char) : List Char :=
  (cs.reverse.dropWhile (· == '/')).reverse

/-- Embeds `os.path.split`: everything up to the last slash (trailing slashes
stripped unless the head is all slashes), and the rest.  `meta_ops.py` uses
`os.path.dirname`/`os.path.basename`; `base._split_path` (base.py is not
under src/) is modelled from the spec as the same split of a path into its
parent directory and final component. -/
def splitPath (p : String) : String × String :=
  let cs := p.toList
  let i := lastSlashIdx cs
  let head := cs.take i
  let tail := cs.drop i
  let head2 := if head ≠ [] ∧ ¬ head.all (· == '/') then dropTrailingSlashes head else head
  (String.mk head2, String.mk tail)

def dirname (p : String) : String := (splitPath p).1

def basename (p : String) : String := (splitPath p).2

/-- A filesystem node, embedding the string-keyed dictionaries stored in
`_root._data`: `type` is "file" or "directory", `content` the optional
"content" entry (code points of the stored `str`), `attrs` the "attrs"
dictionary (values are the decimal strings the sources store), `xattrs`
the optional "xattrs" dictionary and `children` the optional "children"
dictionary mapping child basenames to absolute paths. -/
structure PyNode where
  type : String
  content : Option (List Nat)
  attrs : List (String × String)
  xattrs : Option (List (String × String))
  children : Option (List (String × String))
deriving DecidableEq

/-- Process state of the memory filesystem: the path-indexed node store
`_root._data`, the open-handle table `_open_files` and the handle counter
`fd`.  The source stores `{"path": path, "node": node}` in `_open_files`,
where the node value is a reference aliasing the store entry at that path;
the pair is embedded by its path and every access resolves the node
through the store, which coincides with the aliasing semantics as long as
the bound path is not renamed or unlinked while the handle is open. -/
structure FS where
  data : List (String × PyNode)
  openFiles : List (Nat × String)
  fd : Nat
deriving DecidableEq

/-- Code points of a Lean string literal, for writing concrete Python
string values. -/
def cps (s : String) : List Nat := s.toList.map Char.toNat

/-- Modelled from the spec: `MemoryBase.__getitem__` (base.py is not under
src/); section 4.1 of the spec: lookup returns the node at the path or
"not found", and never throws. -/
def lookup (s : FS) (p : String) : Option PyNode := alGet s.data p

/-- Embeds `node.get("content", "")` as code points. -/
def nodeContentOf (node : PyNode) : List Nat := node.content.getD []

/-- Content of the node currently stored at a path (empty for a missing
node, which no reachable caller hits). -/
def nodeContent (s : FS) (p : String) : List Nat :=
  match alGet s.data p with
  | some n => nodeContentOf n
  | none => []

/-- Modelled from the spec: `base._get_size` (base.py is not under src/);
section 4.2 of the spec: size is always recomputed as the byte length of
the content for files, a nominal fixed size for directories. -/
def getSize (node : PyNode) : Nat :=
  if node.type = "file" then (utf8Encode (nodeContentOf node)).length else 0

/-- Modelled from the spec: `base._get_nlink` (base.py is not under src/);
section 4.2 of the spec: a fixed link-count default per kind, 1 for files
and 2 for directories. -/
def getNlink (t : String) : Nat := if t = "directory" then 2 else 1

/-- Modelled from the spec: `base._get_default_times` (base.py is not
under src/); section 4.2 of the spec: a single constant timestamp used as
the default for absent time fields. -/
def defaultTime : Nat := 0

/-- The volatile attribute keys stripped from the tree snapshot passed to
generators (`file_ops.py` line 64). -/
def volatileKeys : List String := ["st_ctime", "st_mtime", "st_atime", "st_nlink", "st_size"]

/-- Embeds `attrs_copy.pop(attr, None)` for each volatile key
(`file_ops.py` lines 63-65). -/
def stripAttrs (attrs : List (String × String)) : List (String × String) :=
  alPop (alPop (alPop (alPop (alPop attrs "st_ctime") "st_mtime") "st_atime") "st_nlink") "st_size"

/-- The per-node copy built for the generator snapshot: the attrs
dictionary is copied without the volatile keys, every other entry is
copied unchanged (`file_ops.py` lines 58-71). -/
def stripNode (n : PyNode) : PyNode := { n with attrs := stripAttrs n.attrs }

/-- The deep copy of `_root.data` passed to `generate_file_content`
(`file_ops.py` lines 56-73).  The source additionally inserts the plugin
registry under the reserved key "_plugin_registry" for dispatch; the
registry is not a node and is left to the generator parameter here. -/
def snapshotFS (data : List (String × PyNode)) : List (String × PyNode) :=
  data.map (fun kv => (kv.1, stripNode kv.2))

/-- A content generator: `generate_file_content(path, fs_structure)`
(content/generator.py is an external collaborator); `none` embeds a raised
exception. -/
def GenFun : Type := String → List (String × PyNode) → Option (List Nat)

/-- Embeds `"xattrs" in node and "generator" in node["xattrs"]`
(`file_ops.py` line 50). -/
def hasGenTag (node : PyNode) : Bool :=
  match node.xattrs with
  | some x => (alGet x "generator").isSome
  | none => false

/-- Embeds `stat.S_IFREG`. -/
def S_IFREG : Nat := 32768

/-- Embeds `MemoryFileOps.create` (`file_ops.py` lines 21-40): requires the
parent directory (else ENOENT, embedded as `none`), inserts a fresh file
node with empty content and `S_IFREG | mode`, registers the basename in
the parent's children dictionary, increments the handle counter and
returns it without adding any `_open_files` entry.  A parent without a
"children" dictionary would raise KeyError in the source; that unreachable
error path is also embedded as `none`. -/
def createF (s : FS) (path : String) (mode : Nat) : Option (FS × Nat) :=
  let dn := dirname path
  let bn := basename path
  match alGet s.data dn with
  | none => none
  | some parent =>
    match parent.children with
    | none => none
    | some ch =>
      let node : PyNode :=
        { type := "file", content := some [],
          attrs := [("st_mode", natStr (S_IFREG ||| mode))],
          xattrs := none, children := none }
      let d1 := alSet s.data path node
      let d2 := alSet d1 dn { parent with children := some (alSet ch bn path) }
      some ({ s with data := d2, fd := s.fd + 1 }, s.fd + 1)

/-- Embeds `MemoryFileOps.open` (`file_ops.py` lines 42-90): ENOENT (`none`)
unless the path resolves to a file node; when the content is empty or the
node carries a generator tag, builds the stripped tree snapshot, invokes
the generator, and on success stores the content plus its byte length as
the `st_size` string, while a raised generator exception is caught and the
content set to empty; finally allocates a fresh handle bound to the path.
`self._root.update()` (base.py is not under src/) is modelled from the
spec as not mutating the node data: it only refreshes a serialized cache. -/
def openF (gen : GenFun) (s : FS) (path : String) : Option (FS × Nat) :=
  match alGet s.data path with
  | none => none
  | some node =>
    if node.type = "file" then
      let content := nodeContentOf node
      let s1 :=
        if content = [] ∨ hasGenTag node then
          match gen path (snapshotFS s.data) with
          | some c =>
              let node2 : PyNode :=
                { node with
                  content := some c,
                  attrs := alSet node.attrs "st_size" (natStr (utf8Encode c).length) }
              { s with data := alSet s.data path node2 }
          | none =>
              let node2 : PyNode := { node with content := some [] }
              { s with data := alSet s.data path node2 }
        else s
      some ({ s1 with openFiles := alSet s1.openFiles (s.fd + 1) path, fd := s.fd + 1 },
            s.fd + 1)
    else none

/-- Embeds `content_bytes[start_byte:end_byte]` with the guards of
`MemoryFileOps.read` (`file_ops.py` lines 109-118). -/
def sliceBytes (bs : List Nat) (size offset : Nat) : List Nat :=
  if bs.length ≤ offset then []
  else (bs.drop offset).take (min (offset + size) bs.length - offset)

/-- Embeds `MemoryFileOps.read` (`file_ops.py` lines 92-121): resolves the node
through the handle table when the handle is present, else by path lookup
(ENOENT for a missing or non-file node), auto-opening first when the
content is empty; then returns the requested byte range of the UTF-8
encoding of the content, clipped to the total size. -/
def readF (gen : GenFun) (s : FS) (path : String) (size offset fh : Nat) :
    Option (FS × List Nat) :=
  match alGet s.openFiles fh with
  | some p => some (s, sliceBytes (utf8Encode (nodeContent s p)) size offset)
  | none =>
    match alGet s.data path with
    | none => none
    | some node =>
      if node.type = "file" then
        if nodeContentOf node = [] then
          match openF gen s path with
          | some (s1, _) => some (s1, sliceBytes (utf8Encode (nodeContent s1 path)) size offset)
          | none => none
        else some (s, sliceBytes (utf8Encode (nodeContentOf node)) size offset)
      else none

/-- The body of `MemoryFileOps.write` after node resolution
(`file_ops.py` lines 135-156): decodes the incoming bytes as UTF-8 (a
decode error propagates: the handler re-raises), pads the content with
spaces up to `offset` when it is shorter, keeps the first `offset`
characters, appends the decoded data, stores the new content plus its byte
length as the `st_size` string, and returns the length of the decoded
string, i.e. a character count. -/
def writeBody (s : FS) (p : String) (data : List Nat) (offset : Nat) : Option (FS × Nat) :=
  match alGet s.data p with
  | none => none
  | some node =>
    if node.type = "file" then
      match utf8Decode data with
      | none => none
      | some dstr =>
        let content := nodeContentOf node
        let padded :=
          if content.length < offset then content ++ List.replicate (offset - content.length) 32
          else content
        let newContent := padded.take offset ++ dstr
        let node2 : PyNode :=
          { node with
            content := some newContent,
            attrs := alSet node.attrs "st_size" (natStr (utf8Encode newContent).length) }
        some ({ s with data := alSet s.data p node2 }, dstr.length)
    else none

/-- Embeds `MemoryFileOps.write` (`file_ops.py` lines 123-156): resolves the node
through the handle table when the handle is present (the bound node is
used, not the path argument), else by path lookup with ENOENT for a
missing or non-file node and an auto-open when the content is empty; then
runs the write body. -/
def writeF (gen : GenFun) (s : FS) (path : String) (data : List Nat) (offset fh : Nat) :
    Option (FS × Nat) :=
  match alGet s.openFiles fh with
  | some p => writeBody s p data offset
  | none =>
    match alGet s.data path with
    | none => none
    | some node =>
      if node.type = "file" then
        if nodeContentOf node = [] then
          match openF gen s path with
          | some (s1, _) => writeBody s1 path data offset
          | none => none
        else writeBody s path data offset
      else none

/-- Embeds `MemoryFileOps.release` (`file_ops.py` lines 168-173): deletes the
handle-table entry when present and returns 0. -/
def releaseF (s : FS) (_path : String) (fh : Nat) : FS × Nat :=
  ({ s with openFiles := alPop s.openFiles fh }, 0)

/-- Embeds `MemoryMetaOps.chmod` (`meta_ops.py` lines 19-25): when the path
resolves, parses the stored `st_mode` string (a missing or unparsable
entry would raise, embedded as `none`), keeps the bits in 0o770000 and
ors in the new mode; always returns 0, also when the path does not
resolve. -/
def chmodF (s : FS) (path : String) (mode : Nat) : Option (FS × Nat) :=
  match alGet s.data path with
  | none => some (s, 0)
  | some node =>
    match alGet node.attrs "st_mode" with
    | none => none
    | some v =>
      match parsePyInt v with
      | none => none
      | some old =>
        let node2 : PyNode :=
          { node with attrs := alSet node.attrs "st_mode" (natStr ((old &&& 0o770000) ||| mode)) }
        some ({ s with data := alSet s.data path node2 }, 0)

/-- Embeds `MemoryMetaOps.rename` (`meta_ops.py` lines 33-43): when `old` is a
key of the store, pops its node, removes `basename(old)` from the old
parent's children dictionary when that parent exists and has one, inserts
the node under `new`, and adds `basename(new) -> new` to the new parent's
children dictionary when that parent exists and has one; a no-op when
`old` is absent. -/
def renameF (s : FS) (old new : String) : FS :=
  match alGet s.data old with
  | none => s
  | some node =>
    let d1 := alPop s.data old
    let d2 :=
      match alGet d1 (dirname old) with
      | some op =>
        match op.children with
        | some ch => alSet d1 (dirname old) { op with children := some (alPop ch (basename old)) }
        | none => d1
      | none => d1
    let d3 := alSet d2 new node
    let d4 :=
      match alGet d3 (dirname new) with
      | some np =>
        match np.children with
        | some ch => alSet d3 (dirname new) { np with children := some (alSet ch (basename new) new) }
        | none => d3
      | none => d3
    { s with data := d4 }

/-- Embeds `MemoryMetaOps.getattr` (`meta_ops.py` lines 45-73): ENOENT (`none`)
for an unresolved path; otherwise collects the integer-parsable
`st_`-prefixed attributes (Python `int(val)`, embedded as `parsePyInt`
on the nonnegative decimal strings the sources store), fills missing time
fields with the default timestamp and a missing link count from the node
kind, and finally overwrites `st_size` with the recomputed size. -/
def getattrF (s : FS) (path : String) : Option (List (String × Nat)) :=
  match alGet s.data path with
  | none => none
  | some node =>
    let attr := node.attrs.foldl (fun acc kv =>
      if kv.1.startsWith "st_" then
        match parsePyInt kv.2 with
        | some n => alSet acc kv.1 n
        | none => acc
      else acc) []
    let attr := if (alGet attr "st_ctime").isSome then attr else alSet attr "st_ctime" defaultTime
    let attr := if (alGet attr "st_mtime").isSome then attr else alSet attr "st_mtime" defaultTime
    let attr := if (alGet attr "st_atime").isSome then attr else alSet attr "st_atime" defaultTime
    let attr := if (alGet attr "st_nlink").isSome then attr
                else alSet attr "st_nlink" (getNlink node.type)
    some (alSet attr "st_size" (getSize node))

/-- Embeds `os.path.join(d, name)` for an absolute directory and a plain file
name. -/
def joinPath (d name : String) : String :=
  if d.data.getLast? = some '/' then d ++ name else d ++ "/" ++ name

/-- Modelled from the spec: the fixed default prompt template returned
when no ancestor holds a configuration node (config/settings.py and the
prompt plugin are not under src/). -/
def defaultTemplate : List Nat := cps "default prompt template"

/-- The chain of ancestor directories from a starting directory up to the
root, nearest first; the fuel (initialised with the string length) bounds
the walk and never runs out on absolute paths, where `dirname` strictly
shortens until it reaches its fixed point. -/
def ancestorChain : Nat → String → List String
  | 0, d => [d]
  | fuel + 1, d => if dirname d = d then [d] else d :: ancestorChain fuel (dirname d)

/-- Modelled from the spec: the walk of section 4.4 (the prompt plugin is
not under src/, only its tests).  At each ancestor level, convention A
(`.llmfs.prompt`) is consulted before convention B (`.prompt`); a node
whose path is exactly the path being resolved is excluded so a
configuration file never resolves itself; the first hit's content is
passed to the value-extraction function `extract` (which abstracts the
parse-JSON-else-literal step); exhausting the chain yields the default
template. -/
def resolveGo (extract : List Nat → List Nat) (tree : List (String × PyNode))
    (path : String) : List String → List Nat
  | [] => defaultTemplate
  | d :: rest =>
    match (if joinPath d ".llmfs.prompt" ≠ path then alGet tree (joinPath d ".llmfs.prompt") else none) with
    | some n => extract (nodeContentOf n)
    | none =>
      match (if joinPath d ".prompt" ≠ path then alGet tree (joinPath d ".prompt") else none) with
      | some n => extract (nodeContentOf n)
      | none => resolveGo extract tree path rest

/-- Modelled from the spec: `resolve_config(path, tree)` of section 4.4,
starting at the dirname of the path and walking to the root. -/
def resolveConfig (extract : List Nat → List Nat) (tree : List (String × PyNode))
    (path : String) : List Nat :=
  resolveGo extract tree path (ancestorChain (dirname path).length (dirname path))

/-- The value provided by one ancestor level: convention A's content if a
node (other than the resolved path itself) exists there, else convention
B's, else nothing.  This is the specification-side per-level rule used to
characterise `resolveConfig`. -/
def levelHit (extract : List Nat → List Nat) (tree : List (String × PyNode))
    (path d : String) : Option (List Nat) :=
  match (if joinPath d ".llmfs.prompt" ≠ path then alGet tree (joinPath d ".llmfs.prompt") else none) with
  | some n => some (extract (nodeContentOf n))
  | none =>
    match (if joinPath d ".prompt" ≠ path then alGet tree (joinPath d ".prompt") else none) with
    | some n => some (extract (nodeContentOf n))
    | none => none

/-- A directory node with the given children map. -/
def mkDir (ch : List (String × String)) : PyNode :=
  { type := "directory", content := none, attrs := [("st_mode", "16877")],
    xattrs := none, children := some ch }

/-- A plain file node with the given content and attrs. -/
def mkFile (c : List Nat) (attrs : List (String × String)) : PyNode :=
  { type := "file", content := some c, attrs := attrs, xattrs := none, children := none }

/-- A generator-tagged file node. -/
def mkGenFile (c : List Nat) (attrs : List (String × String)) (g : String) : PyNode :=
  { type := "file", content := some c, attrs := attrs,
    xattrs := some [("generator", g)], children := none }

/-- A generator that always raises. -/
def genFail : GenFun := fun _ _ => none

/-- A generator that always produces the same constant text. -/
def genHello : GenFun := fun _ _ => some (cps "hello")

/-- Store with a root and one ASCII file "/f" (content "ab"), handle 1
bound to "/f". -/
def stZ : FS :=
  { data := [("/", mkDir [("f", "/f")]), ("/f", mkFile (cps "ab") [("st_mode", "33188")])],
    openFiles := [(1, "/f")], fd := 1 }

/-- Store with a root and one file "/f" whose content is the single code
point U+00E9 (two bytes in UTF-8), handle 1 bound to "/f". -/
def stE : FS :=
  { data := [("/", mkDir [("f", "/f")]), ("/f", mkFile [233] [("st_mode", "33188")])],
    openFiles := [(1, "/f")], fd := 1 }

/-- State `stE` after writing byte 0x58 at offset 1 through handle 1. -/
def stE2 : FS :=
  { data := [("/", mkDir [("f", "/f")]),
             ("/f", mkFile [233, 88] [("st_mode", "33188"), ("st_size", "3")])],
    openFiles := [(1, "/f")], fd := 1 }

/-- Store with a root and one empty file "/f", handle 1 bound to "/f". -/
def stEmpty : FS :=
  { data := [("/", mkDir [("f", "/f")]), ("/f", mkFile [] [("st_mode", "33188")])],
    openFiles := [(1, "/f")], fd := 1 }

/-- State `stEmpty` after writing bytes 0xC3 0xA9 at offset 0 through handle 1:
the two bytes decode to the single code point U+00E9. -/
def stEmpty2 : FS :=
  { data := [("/", mkDir [("f", "/f")]),
             ("/f", mkFile [233] [("st_mode", "33188"), ("st_size", "2")])],
    openFiles := [(1, "/f")], fd := 1 }

/-- Store with a root directory and one file "/a", no open handles. -/
def stA : FS :=
  { data := [("/", mkDir [("a", "/a")]), ("/a", mkFile (cps "x") [("st_mode", "33188")])],
    openFiles := [], fd := 0 }

/-- Store with a bare root directory, no entries. -/
def stRoot : FS :=
  { data := [("/", mkDir [])], openFiles := [], fd := 0 }

/-- State `stRoot` after `create("/f", 0o644)`. -/
def stRoot2 : FS :=
  { data := [("/", mkDir [("f", "/f")]), ("/f", mkFile [] [("st_mode", "33188")])],
    openFiles := [], fd := 1 }

/-- Store with directories "/", "/a", "/b" and a file "/a/f", no open
handles; used to exercise a cross-directory rename. -/
def stTwo : FS :=
  { data := [("/", mkDir [("a", "/a"), ("b", "/b")]),
             ("/a", mkDir [("f", "/a/f")]),
             ("/b", mkDir []),
             ("/a/f", mkFile (cps "hi") [("st_mode", "33188")])],
    openFiles := [], fd := 0 }

/-- Store with a generator-tagged empty file "/g" carrying a stale
`st_size` string, no open handles. -/
def stGen : FS :=
  { data := [("/", mkDir [("g", "/g")]),
             ("/g", mkGenFile [] [("st_mode", "33188"), ("st_size", "9999")] "default")],
    openFiles := [], fd := 0 }

/-- State `stGen` after `open("/g")` with a generator producing "hello". -/
def stGen2 : FS :=
  { data := [("/", mkDir [("g", "/g")]),
             ("/g", { type := "file", content := some (cps "hello"),
                      attrs := [("st_mode", "33188"), ("st_size", "5")],
                      xattrs := some [("generator", "default")], children := none })],
    openFiles := [(1, "/g")], fd := 1 }

/-- Configuration tree for the resolver example: convention A at
"/project" and convention B at "/project/subdir". -/
def promptTree : List (String × PyNode) :=
  [("/project/.llmfs.prompt", mkFile (cps "Project llmfs prompt") [("st_mode", "33188")]),
   ("/project/subdir/.prompt", mkFile (cps "Subdir prompt") [("st_mode", "33188")]),
   ("/project/subdir/file.py", mkFile [] [("st_mode", "33188")])]

/-- The content produced by the write body: the old content padded with
spaces up to `offset` when shorter, truncated at `offset`, followed by the
decoded data (`file_ops.py` lines 140-144). -/
def spliceAt (c : List Nat) (offset : Nat) (dstr : List Nat) : List Nat :=
  (if c.length < offset then c ++ List.replicate (offset - c.length) 32 else c).take offset ++ dstr

theorem alGet_alSet_self {κ α : Type} [DecidableEq κ] (m : List (κ × α)) (k : κ) (v : α) :
    alGet (alSet m k v) k = some v := by
  induction m with
  | nil => simp [alGet, alSet]
  | cons hd tl ih =>
      obtain ⟨k', v'⟩ := hd
      by_cases h : k' = k
      · simp [alGet, alSet, h]
      · simp [alGet, alSet, h, ih]

theorem alGet_alSet_ne {κ α : Type} [DecidableEq κ] (m : List (κ × α)) (k k' : κ) (v : α)
    (h : k ≠ k') : alGet (alSet m k v) k' = alGet m k' := by
  induction m with
  | nil => simp [alGet, alSet, h]
  | cons hd tl ih =>
      obtain ⟨k0, v0⟩ := hd
      by_cases h0 : k0 = k
      · subst h0
        simp [alGet, alSet, h]
      · simp only [alSet, if_neg h0]
        by_cases h1 : k0 = k'
        · simp [alGet, h1]
        · simp [alGet, h1, ih]

theorem alGet_alPop_self {κ α : Type} [DecidableEq κ] (m : List (κ × α)) (k : κ) :
    alGet (alPop m k) k = none := by
  induction m with
  | nil => simp [alGet, alPop]
  | cons hd tl ih =>
      obtain ⟨k', v'⟩ := hd
      by_cases h : k' = k
      · simp [alPop, h, ih]
      · simp [alGet, alPop, h, ih]

theorem alGet_alPop_ne {κ α : Type} [DecidableEq κ] (m : List (κ × α)) (k k' : κ)
    (h : k ≠ k') : alGet (alPop m k) k' = alGet m k' := by
  induction m with
  | nil => simp [alGet, alPop]
  | cons hd tl ih =>
      obtain ⟨k0, v0⟩ := hd
      by_cases h0 : k0 = k
      · subst h0
        simp [alGet, alPop, if_neg (Ne.symm h), ih, h]
      · by_cases h1 : k0 = k'
        · subst h1
          simp [alGet, alPop, h0, if_neg (Ne.symm h), ih]
        · simp [alGet, alPop, h0, h1, ih]

theorem alGet_map {κ α β : Type} [DecidableEq κ] (f : α → β) (m : List (κ × α)) (k : κ) :
    alGet (m.map (fun kv => (kv.1, f kv.2))) k = (alGet m k).map f := by
  induction m with
  | nil => simp [alGet]
  | cons hd tl ih =>
      obtain ⟨k', v'⟩ := hd
      by_cases h : k' = k
      · simp [alGet, h]
      · simp [alGet, h, ih]

theorem utf8Bytes_length_pos (c : Nat) : 1 ≤ (utf8Bytes c).length := by
  unfold utf8Bytes
  split
  · simp
  · split
    · simp
    · split <;> simp

theorem utf8Bytes_length_eq (c : Nat) :
    (utf8Bytes c).length =
      if c < 128 then 1 else if c < 2048 then 2 else if c < 65536 then 3 else 4 := by
  unfold utf8Bytes
  repeat' split
  all_goals simp

theorem utf8Encode_append (a b : List Nat) :
    utf8Encode (a ++ b) = utf8Encode a ++ utf8Encode b := by
  induction a with
  | nil => simp [utf8Encode]
  | cons c cs ih => simp [utf8Encode, ih]

theorem length_le_utf8Encode_length (l : List Nat) :
    l.length ≤ (utf8Encode l).length := by
  induction l with
  | nil => simp [utf8Encode]
  | cons c cs ih =>
      have := utf8Bytes_length_pos c
      simp only [utf8Encode, List.length_append, List.length_cons]
      omega

theorem utf8Encode_ascii (l : List Nat) (h : ∀ c ∈ l, c < 128) : utf8Encode l = l := by
  induction l with
  | nil => simp [utf8Encode]
  | cons c cs ih =>
      have hc : c < 128 := h c (List.mem_cons_self c cs)
      have hcs : ∀ x ∈ cs, x < 128 := fun x hx => h x (List.mem_cons_of_mem c hx)
      simp [utf8Encode, utf8Bytes, hc, ih hcs]

/-- A decoding step consumes exactly as many bytes as the produced code
point re-encodes to: the strict range checks pin each code point to the
width class it was read from. -/
theorem utf8Step_sound (l : List Nat) (c : Nat) (r : List Nat)
    (h : utf8Step l = some (c, r)) : (utf8Bytes c).length + r.length = l.length := by
  rcases l with _ | ⟨b, _ | ⟨b1, _ | ⟨b2, _ | ⟨b3, tl⟩⟩⟩⟩ <;>
  · simp only [utf8Step] at h
    repeat' split at h
    all_goals
      first
      | exact Option.noConfusion h
      | · simp only [Option.some.injEq, Prod.mk.injEq] at h
          obtain ⟨rfl, rfl⟩ := h
          simp only [utf8Bytes_length_eq, List.length_cons, List.length_nil]
          repeat' split
          all_goals omega

theorem utf8DecodeAux_length :
    ∀ fuel l cs, utf8DecodeAux fuel l = some cs → (utf8Encode cs).length = l.length := by
  intro fuel
  induction fuel with
  | zero =>
      intro l cs h
      cases l with
      | nil =>
          simp only [utf8DecodeAux, Option.some.injEq] at h
          subst h
          simp [utf8Encode]
      | cons b rest => simp [utf8DecodeAux] at h
  | succ n ih =>
      intro l cs h
      cases l with
      | nil =>
          simp only [utf8DecodeAux, Option.some.injEq] at h
          subst h
          simp [utf8Encode]
      | cons b rest =>
          simp only [utf8DecodeAux] at h
          cases hs : utf8Step (b :: rest) with
          | none => rw [hs] at h; simp at h
          | some cr =>
              obtain ⟨c, r⟩ := cr
              rw [hs] at h
              simp only [Option.map_eq_some'] at h
              obtain ⟨cs', hcs', rfl⟩ := h
              have hsound := utf8Step_sound _ _ _ hs
              simp only [List.length_cons] at hsound
              have hlen := ih r cs' hcs'
              simp only [utf8Encode, List.length_append, List.length_cons]
              omega

/-- A successfully decoded byte string re-encodes to the same number of
bytes. -/
theorem utf8Decode_length (bs cs : List Nat) (h : utf8Decode bs = some cs) :
    (utf8Encode cs).length = bs.length :=
  utf8DecodeAux_length bs.length bs cs h

theorem utf8DecodeAux_ascii :
    ∀ fuel l, (∀ c ∈ l, c < 128) → l.length ≤ fuel → utf8DecodeAux fuel l = some l := by
  intro fuel
  induction fuel with
  | zero =>
      intro l h hle
      cases l with
      | nil => simp [utf8DecodeAux]
      | cons b rest => simp at hle
  | succ n ih =>
      intro l h hle
      cases l with
      | nil => simp [utf8DecodeAux]
      | cons b rest =>
          have hb : b < 128 := h b (List.mem_cons_self b rest)
          have hrest : ∀ c ∈ rest, c < 128 := fun c hc => h c (List.mem_cons_of_mem b hc)
          have hlen : rest.length ≤ n := by simp at hle; omega
          simp only [utf8DecodeAux, utf8Step, if_pos hb]
          simp [ih rest hrest hlen]

/-- ASCII byte strings decode to themselves. -/
theorem utf8Decode_ascii (l : List Nat) (h : ∀ c ∈ l, c < 128) : utf8Decode l = some l :=
  utf8DecodeAux_ascii l.length l h le_rfl

theorem sliceBytes_eq (bs : List Nat) (size offset : Nat) :
    sliceBytes bs size offset = (bs.drop offset).take size := by
  unfold sliceBytes
  split
  · next hle =>
      rw [List.drop_eq_nil_of_le hle]
      simp
  · next hgt =>
      have hlt : offset < bs.length := by omega
      have hdrop : (bs.drop offset).length = bs.length - offset := List.length_drop offset bs
      rcases le_or_lt (offset + size) bs.length with h | h
      · have hm : min (offset + size) bs.length - offset = size := by omega
        rw [hm]
      · have hm : min (offset + size) bs.length - offset = bs.length - offset := by omega
        rw [hm]
        rw [List.take_of_length_le (by omega), List.take_of_length_le (by omega)]

theorem getattrF_size (s : FS) (path : String) (node : PyNode)
    (h : alGet s.data path = some node) :
    ∃ attrs, getattrF s path = some attrs ∧ alGet attrs "st_size" = some (getSize node) := by
  simp only [getattrF, h]
  exact ⟨_, rfl, alGet_alSet_self _ _ _⟩

theorem openF_gen_success (gen : GenFun) (s : FS) (path : String) (node : PyNode) (c : List Nat)
    (h : alGet s.data path = some node) (ht : node.type = "file")
    (hcond : nodeContentOf node = [] ∨ hasGenTag node = true)
    (hgen : gen path (snapshotFS s.data) = some c) :
    openF gen s path =
      some ({ data := alSet s.data path
                ({ node with
                   content := some c,
                   attrs := alSet node.attrs "st_size" (natStr (utf8Encode c).length) }),
              openFiles := alSet s.openFiles (s.fd + 1) path,
              fd := s.fd + 1 }, s.fd + 1) := by
  simp only [openF, h, ht, if_true, hgen, if_pos hcond]

theorem openF_gen_failure (gen : GenFun) (s : FS) (path : String) (node : PyNode)
    (h : alGet s.data path = some node) (ht : node.type = "file")
    (hcond : nodeContentOf node = [] ∨ hasGenTag node = true)
    (hgen : gen path (snapshotFS s.data) = none) :
    openF gen s path =
      some ({ data := alSet s.data path ({ node with content := some [] }),
              openFiles := alSet s.openFiles (s.fd + 1) path,
              fd := s.fd + 1 }, s.fd + 1) := by
  simp only [openF, h, ht, if_true, hgen, if_pos hcond]

/-- C1: for every file node tagged with a generator whose content is
empty, `open` triggers synchronous generation; on success the generated
content is stored in the node and a subsequent `getattr` reports `st_size`
equal to the byte length of that content, regardless of any previously
stored `st_size` attribute string (the node's attrs are arbitrary here, so
they may hold any stale size string). -/
theorem open_generates_content_and_size (gen : GenFun) (s : FS) (path : String)
    (node : PyNode) (c : List Nat)
    (h : alGet s.data path = some node) (ht : node.type = "file")
    (_htag : hasGenTag node = true) (hempty : nodeContentOf node = [])
    (hgen : gen path (snapshotFS s.data) = some c) :
    ∃ s1, openF gen s path = some (s1, s.fd + 1) ∧
      (∃ node1, alGet s1.data path = some node1 ∧ node1.content = some c) ∧
      (∃ attrs, getattrF s1 path = some attrs ∧
        alGet attrs "st_size" = some (utf8Encode c).length) := by
  have hopen := openF_gen_success gen s path node c h ht (Or.inl hempty) hgen
  refine ⟨_, hopen, ⟨_, alGet_alSet_self _ _ _, rfl⟩, ?_⟩
  simp only [getattrF, alGet_alSet_self]
  refine ⟨_, rfl, ?_⟩
  rw [alGet_alSet_self]
  simp [getSize, nodeContentOf, ht]

/-- Witness for C1: a generator-tagged empty file "/g" carrying the stale
size string "9999"; after `open` with a generator producing "hello",
`getattr` reports size 5. -/
theorem open_generates_content_and_size_witness :
    ∃ s1, openF genHello stGen "/g" = some (s1, stGen.fd + 1) ∧
      (∃ node1, alGet s1.data "/g" = some node1 ∧ node1.content = some (cps "hello")) ∧
      (∃ attrs, getattrF s1 "/g" = some attrs ∧
        alGet attrs "st_size" = some (utf8Encode (cps "hello")).length) :=
  open_generates_content_and_size genHello stGen "/g"
    (mkGenFile [] [("st_mode", "33188"), ("st_size", "9999")] "default") (cps "hello")
    (by decide) (by decide) (by decide) (by decide) (by decide)

/-- C5: for a generator-tagged file, a raised generator exception does not
fail the calling `open`: the node's content is set to empty, a handle is
returned, the generator tag is preserved, and a second `open` attempts
generation again, storing whatever a succeeding generator then returns
(failure is never cached as success). -/
theorem open_generation_failure_recovers (gen : GenFun) (s : FS) (path : String)
    (node : PyNode)
    (h : alGet s.data path = some node) (ht : node.type = "file")
    (htag : hasGenTag node = true)
    (hgen : gen path (snapshotFS s.data) = none) :
    ∃ s1, openF gen s path = some (s1, s.fd + 1) ∧
      (∃ node1, alGet s1.data path = some node1 ∧ node1.content = some [] ∧
        node1.xattrs = node.xattrs) ∧
      (∀ gen2 c2, gen2 path (snapshotFS s1.data) = some c2 →
        ∃ s2, openF gen2 s1 path = some (s2, s1.fd + 1) ∧
          ∃ node2, alGet s2.data path = some node2 ∧ node2.content = some c2) := by
  have hopen := openF_gen_failure gen s path node h ht (Or.inr htag) hgen
  refine ⟨_, hopen, ⟨_, alGet_alSet_self _ _ _, rfl, rfl⟩, ?_⟩
  intro gen2 c2 hgen2
  have hnode1 : alGet (alSet s.data path ({ node with content := some [] })) path =
      some ({ node with content := some [] }) := alGet_alSet_self _ _ _
  have hopen2 := openF_gen_success gen2 _ path ({ node with content := some [] }) c2
    hnode1 ht (Or.inl rfl) hgen2
  exact ⟨_, hopen2, _, alGet_alSet_self _ _ _, rfl⟩

/-- Witness for C5: the generator-tagged file "/g" with a failing
generator keeps an empty content and an open that succeeds; re-opening
with a succeeding generator stores "hello". -/
theorem open_generation_failure_recovers_witness :
    ∃ s1, openF genFail stGen "/g" = some (s1, stGen.fd + 1) ∧
      (∃ node1, alGet s1.data "/g" = some node1 ∧ node1.content = some [] ∧
        node1.xattrs = (mkGenFile [] [("st_mode", "33188"), ("st_size", "9999")] "default").xattrs) ∧
      (∀ gen2 c2, gen2 "/g" (snapshotFS s1.data) = some c2 →
        ∃ s2, openF gen2 s1 "/g" = some (s2, s1.fd + 1) ∧
          ∃ node2, alGet s2.data "/g" = some node2 ∧ node2.content = some c2) :=
  open_generation_failure_recovers genFail stGen "/g"
    (mkGenFile [] [("st_mode", "33188"), ("st_size", "9999")] "default")
    (by decide) (by decide) (by decide) (by decide)

theorem stripAttrs_volatile (attrs : List (String × String)) (k : String)
    (hk : k ∈ volatileKeys) : alGet (stripAttrs attrs) k = none := by
  unfold stripAttrs
  simp only [volatileKeys, List.mem_cons, List.not_mem_nil, or_false] at hk
  rcases hk with rfl | rfl | rfl | rfl | rfl
  · rw [alGet_alPop_ne _ _ _ (by decide), alGet_alPop_ne _ _ _ (by decide),
        alGet_alPop_ne _ _ _ (by decide), alGet_alPop_ne _ _ _ (by decide),
        alGet_alPop_self]
  · rw [alGet_alPop_ne _ _ _ (by decide), alGet_alPop_ne _ _ _ (by decide),
        alGet_alPop_ne _ _ _ (by decide), alGet_alPop_self]
  · rw [alGet_alPop_ne _ _ _ (by decide), alGet_alPop_ne _ _ _ (by decide),
        alGet_alPop_self]
  · rw [alGet_alPop_ne _ _ _ (by decide), alGet_alPop_self]
  · rw [alGet_alPop_self]

theorem stripAttrs_other (attrs : List (String × String)) (k : String)
    (hk : ¬ k ∈ volatileKeys) : alGet (stripAttrs attrs) k = alGet attrs k := by
  simp only [volatileKeys, List.mem_cons, List.not_mem_nil, or_false, not_or] at hk
  obtain ⟨h1, h2, h3, h4, h5⟩ := hk
  unfold stripAttrs
  rw [alGet_alPop_ne _ _ _ (Ne.symm h5), alGet_alPop_ne _ _ _ (Ne.symm h4),
      alGet_alPop_ne _ _ _ (Ne.symm h3), alGet_alPop_ne _ _ _ (Ne.symm h2),
      alGet_alPop_ne _ _ _ (Ne.symm h1)]

theorem openF_frame (gen : GenFun) (s : FS) (path : String) (s1 : FS) (fd : Nat)
    (hop : openF gen s path = some (s1, fd)) :
    ∀ q, q ≠ path → alGet s1.data q = alGet s.data q := by
  intro q hq
  cases hd : alGet s.data path with
  | none =>
      simp only [openF, hd] at hop
      exact Option.noConfusion hop
  | some node =>
      simp only [openF, hd] at hop
      by_cases ht : node.type = "file"
      · rw [if_pos ht] at hop
        simp only [Option.some.injEq, Prod.mk.injEq] at hop
        obtain ⟨hs1, hfd⟩ := hop
        subst hs1
        dsimp only
        by_cases hcond : nodeContentOf node = [] ∨ hasGenTag node = true
        · rw [if_pos hcond]
          cases hg : gen path (snapshotFS s.data) with
          | some c =>
              simp only [hg]
              exact alGet_alSet_ne _ _ _ _ (Ne.symm hq)
          | none =>
              simp only [hg]
              exact alGet_alSet_ne _ _ _ _ (Ne.symm hq)
        · rw [if_neg hcond]
      · rw [if_neg ht] at hop
        exact Option.noConfusion hop

/-- C9: the tree snapshot built for a generator invocation is a copy of
the path-to-node mapping whose attribute dictionaries exclude exactly the
volatile keys st_ctime, st_mtime, st_atime, st_nlink and st_size, with
every other field and attribute preserved; and an `open` (which builds the
snapshot and runs the generator) leaves every node of the live tree other
than the opened path unchanged. -/
theorem snapshot_strips_volatile_and_open_is_local :
    (∀ (d : List (String × PyNode)) (p : String) (n : PyNode), alGet d p = some n →
      alGet (snapshotFS d) p = some (stripNode n) ∧
      (stripNode n).type = n.type ∧ (stripNode n).content = n.content ∧
      (stripNode n).xattrs = n.xattrs ∧ (stripNode n).children = n.children ∧
      (∀ k, k ∈ volatileKeys → alGet (stripNode n).attrs k = none) ∧
      (∀ k, ¬ k ∈ volatileKeys → alGet (stripNode n).attrs k = alGet n.attrs k)) ∧
    (∀ gen s path s1 fd, openF gen s path = some (s1, fd) →
      ∀ q, q ≠ path → alGet s1.data q = alGet s.data q) := by
  constructor
  · intro d p n h
    refine ⟨?_, rfl, rfl, rfl, rfl, ?_, ?_⟩
    · unfold snapshotFS
      rw [alGet_map, h]
      rfl
    · intro k hk
      exact stripAttrs_volatile n.attrs k hk
    · intro k hk
      exact stripAttrs_other n.attrs k hk
  · exact openF_frame

/-- Witness for C9: in the concrete store `stGen`, the snapshot entry of
"/g" is the stripped node (its stale st_size string gone), and the open
with a succeeding generator leaves the root node unchanged. -/
theorem snapshot_strips_volatile_and_open_is_local_witness :
    alGet (snapshotFS stGen.data) "/g" =
      some (stripNode (mkGenFile [] [("st_mode", "33188"), ("st_size", "9999")] "default")) ∧
    alGet (stripNode (mkGenFile [] [("st_mode", "33188"), ("st_size", "9999")] "default")).attrs
      "st_size" = none ∧
    alGet stGen2.data "/" = alGet stGen.data "/" :=
  ⟨(snapshot_strips_volatile_and_open_is_local.1 stGen.data "/g" _ (by decide)).1,
   (snapshot_strips_volatile_and_open_is_local.1 stGen.data "/g" _ (by decide)).2.2.2.2.2.1
     "st_size" (by decide),
   snapshot_strips_volatile_and_open_is_local.2 genHello stGen "/g" stGen2 1 (by decide)
     "/" (by decide)⟩

/-- C6: through an open handle bound to a node with content `c` (and, on
the path route, for a non-empty file node), `read` returns the byte range
of the UTF-8 encoding of `c` starting at `offset` of length at most
`size`, clipped to the content's byte length; an offset at or past the
byte length yields the empty result, and no error is possible for any
offset or size. -/
theorem read_returns_clipped_range :
    (∀ gen (s : FS) path size offset fh p node c,
      alGet s.openFiles fh = some p → alGet s.data p = some node → node.content = some c →
      readF gen s path size offset fh = some (s, ((utf8Encode c).drop offset).take size) ∧
      ((utf8Encode c).length ≤ offset → readF gen s path size offset fh = some (s, []))) ∧
    (∀ gen (s : FS) path size offset fh node c,
      alGet s.openFiles fh = none → alGet s.data path = some node → node.type = "file" →
      node.content = some c → c ≠ [] →
      readF gen s path size offset fh = some (s, ((utf8Encode c).drop offset).take size)) := by
  constructor
  · intro gen s path size offset fh p node c hfh hnode hc
    have hmain : readF gen s path size offset fh =
        some (s, ((utf8Encode c).drop offset).take size) := by
      simp only [readF, hfh, nodeContent, hnode, nodeContentOf, hc, Option.getD_some,
        sliceBytes_eq]
    refine ⟨hmain, fun hle => ?_⟩
    rw [hmain, List.drop_eq_nil_of_le hle, List.take_nil]
  · intro gen s path size offset fh node c hfh hnode ht hc hne
    have hcon : nodeContentOf node = c := by simp [nodeContentOf, hc]
    simp only [readF, hfh, hnode, ht, if_true, hcon, if_neg hne, sliceBytes_eq]

/-- Witness for C6: reading 2 bytes at offset 1 of "ab" through handle 1
yields "b", and reading at offset 2 yields nothing. -/
theorem read_returns_clipped_range_witness :
    readF genFail stZ "/f" 2 1 1 =
      some (stZ, ((utf8Encode (cps "ab")).drop 1).take 2) ∧
    readF genFail stZ "/f" 2 2 1 = some (stZ, []) :=
  ⟨((read_returns_clipped_range.1 genFail stZ "/f" 2 1 1 "/f"
      (mkFile (cps "ab") [("st_mode", "33188")]) (cps "ab")
      (by decide) (by decide) (by decide)).1),
   ((read_returns_clipped_range.1 genFail stZ "/f" 2 2 1 "/f"
      (mkFile (cps "ab") [("st_mode", "33188")]) (cps "ab")
      (by decide) (by decide) (by decide)).2 (by decide))⟩

/-- C10: `chmod(path, mode)` parses the stored `st_mode` string, replaces
it with `(old & 0o770000) | mode` (preserving the high file-type bits),
changes nothing else on that node, leaves every other node and the rest of
the state unchanged, and returns 0; when the path does not resolve it is a
silent no-op that still returns 0. -/
theorem chmod_updates_only_mode :
    (∀ (s : FS) path mode node v m,
      alGet s.data path = some node →
      alGet node.attrs "st_mode" = some v → parsePyInt v = some m →
      ∃ s1, chmodF s path mode = some (s1, 0) ∧
        ∃ node1, alGet s1.data path = some node1 ∧
          alGet node1.attrs "st_mode" = some (natStr ((m &&& 0o770000) ||| mode)) ∧
          (∀ k, k ≠ "st_mode" → alGet node1.attrs k = alGet node.attrs k) ∧
          node1.type = node.type ∧ node1.content = node.content ∧
          node1.xattrs = node.xattrs ∧ node1.children = node.children ∧
          (∀ q, q ≠ path → alGet s1.data q = alGet s.data q) ∧
          s1.openFiles = s.openFiles ∧ s1.fd = s.fd) ∧
    (∀ (s : FS) path mode, alGet s.data path = none → chmodF s path mode = some (s, 0)) := by
  constructor
  · intro s path mode node v m h hv hm
    refine ⟨{ s with data := alSet s.data path ({ node with attrs := alSet node.attrs "st_mode" (natStr ((m &&& 0o770000) ||| mode)) }) }, ?_, { node with attrs := alSet node.attrs "st_mode" (natStr ((m &&& 0o770000) ||| mode)) }, alGet_alSet_self _ _ _, alGet_alSet_self _ _ _, ?_, rfl, rfl, rfl, rfl, ?_, rfl, rfl⟩
    · simp only [chmodF, h, hv, hm]
    · intro k hk
      exact alGet_alSet_ne _ _ _ _ (Ne.symm hk)
    · intro q hq
      exact alGet_alSet_ne _ _ _ _ (Ne.symm hq)
  · intro s path mode h
    simp only [chmodF, h]

/-- Witness for C10: chmod("/a", 0o755) on a file stored with mode string
"33188" stores "33261" and returns 0. -/
theorem chmod_updates_only_mode_witness :
    ∃ s1, chmodF stA "/a" 493 = some (s1, 0) ∧
      ∃ node1, alGet s1.data "/a" = some node1 ∧
        alGet node1.attrs "st_mode" = some "33261" := by
  obtain ⟨s1, h1, node1, h2, h3, -⟩ := chmod_updates_only_mode.1 stA "/a" 493
    (mkFile (cps "x") [("st_mode", "33188")]) "33188" 33188 (by decide) (by decide) (by decide)
  exact ⟨s1, h1, node1, h2, h3.trans (by decide)⟩

/-- C8 as amended: a handle returned by `open` is registered in the
open-handle table, bound to the opened path, from the moment it is
returned until `release` deletes it; `read` and `write` consulting the
table by that handle resolve the node it was bound to (the bound path,
whatever path argument they are given).  A handle returned by `create`,
in contrast, is only the incremented counter and gets no table entry, and
`read`/`write` with an unregistered handle fall back to resolving the
node by their path argument. -/
theorem open_registers_handle_create_does_not :
    (∀ gen (s : FS) path s1 fd, openF gen s path = some (s1, fd) →
      fd = s.fd + 1 ∧ alGet s1.openFiles fd = some path ∧
      (∀ gen2 q size offset, readF gen2 s1 q size offset fd =
        some (s1, sliceBytes (utf8Encode (nodeContent s1 path)) size offset)) ∧
      (∀ gen2 q data offset, writeF gen2 s1 q data offset fd = writeBody s1 path data offset) ∧
      (∀ q, alGet ((releaseF s1 q fd).1).openFiles fd = none)) ∧
    (∀ (s : FS) path mode s1 fd, createF s path mode = some (s1, fd) →
      fd = s.fd + 1 ∧ s1.openFiles = s.openFiles) ∧
    (∀ gen2 (s2 : FS) q size offset fh node c,
      alGet s2.openFiles fh = none → alGet s2.data q = some node → node.type = "file" →
      node.content = some c → c ≠ [] →
      readF gen2 s2 q size offset fh = some (s2, sliceBytes (utf8Encode c) size offset)) ∧
    (∀ gen2 (s2 : FS) q data offset fh node c,
      alGet s2.openFiles fh = none → alGet s2.data q = some node → node.type = "file" →
      node.content = some c → c ≠ [] →
      writeF gen2 s2 q data offset fh = writeBody s2 q data offset) := by
  refine ⟨?_, ?_, ?_, ?_⟩
  · intro gen s path s1 fd hop
    cases hd : alGet s.data path with
    | none =>
        simp only [openF, hd] at hop
        exact Option.noConfusion hop
    | some node =>
        simp only [openF, hd] at hop
        by_cases ht : node.type = "file"
        · rw [if_pos ht] at hop
          by_cases hcond : nodeContentOf node = [] ∨ hasGenTag node = true
          · rw [if_pos hcond] at hop
            cases hg : gen path (snapshotFS s.data) with
            | some c =>
                simp only [hg, Option.some.injEq, Prod.mk.injEq] at hop
                obtain ⟨hs1, hfd⟩ := hop
                subst hs1
                subst hfd
                refine ⟨rfl, alGet_alSet_self _ _ _, ?_, ?_, ?_⟩
                · intro gen2 q size offset
                  simp only [readF, alGet_alSet_self]
                · intro gen2 q data offset
                  simp only [writeF, alGet_alSet_self]
                · intro q
                  exact alGet_alPop_self _ _
            | none =>
                simp only [hg, Option.some.injEq, Prod.mk.injEq] at hop
                obtain ⟨hs1, hfd⟩ := hop
                subst hs1
                subst hfd
                refine ⟨rfl, alGet_alSet_self _ _ _, ?_, ?_, ?_⟩
                · intro gen2 q size offset
                  simp only [readF, alGet_alSet_self]
                · intro gen2 q data offset
                  simp only [writeF, alGet_alSet_self]
                · intro q
                  exact alGet_alPop_self _ _
          · rw [if_neg hcond] at hop
            simp only [Option.some.injEq, Prod.mk.injEq] at hop
            obtain ⟨hs1, hfd⟩ := hop
            subst hs1
            subst hfd
            refine ⟨rfl, alGet_alSet_self _ _ _, ?_, ?_, ?_⟩
            · intro gen2 q size offset
              simp only [readF, alGet_alSet_self]
            · intro gen2 q data offset
              simp only [writeF, alGet_alSet_self]
            · intro q
              exact alGet_alPop_self _ _
        · rw [if_neg ht] at hop
          exact Option.noConfusion hop
  · intro s path mode s1 fd hc
    cases hd : alGet s.data (dirname path) with
    | none =>
        simp only [createF, hd] at hc
        exact Option.noConfusion hc
    | some parent =>
        cases hch : parent.children with
        | none =>
            simp only [createF, hd, hch] at hc
            exact Option.noConfusion hc
        | some ch =>
            simp only [createF, hd, hch, Option.some.injEq, Prod.mk.injEq] at hc
            obtain ⟨hs1, hfd⟩ := hc
            subst hs1
            subst hfd
            exact ⟨rfl, rfl⟩
  · intro gen2 s2 q size offset fh node c hfh hnode ht hc hne
    have hcon : nodeContentOf node = c := by simp [nodeContentOf, hc]
    simp only [readF, hfh, hnode, ht, if_true, hcon, if_neg hne]
  · intro gen2 s2 q data offset fh node c hfh hnode ht hc hne
    have hcon : nodeContentOf node = c := by simp [nodeContentOf, hc]
    simp only [writeF, hfh, hnode, ht, if_true, hcon, if_neg hne]

/-- Witness for C8: opening "/g" registers handle 1 bound to "/g" (gone
again after release); a write through handle 1 resolves the bound path
"/g" whatever path argument it is given; the create of "/f" in the bare
root returns handle 1 with the table left empty; and on the handle-free
store `stA`, read and write with the unregistered handle 1 fall back to
the node at their path argument "/a". -/
theorem open_registers_handle_create_does_not_witness :
    alGet stGen2.openFiles 1 = some "/g" ∧
    writeF genFail stGen2 "/x" [97] 0 1 = writeBody stGen2 "/g" [97] 0 ∧
    alGet ((releaseF stGen2 "/g" 1).1).openFiles 1 = none ∧
    stRoot2.openFiles = stRoot.openFiles ∧
    readF genFail stA "/a" 5 0 1 = some (stA, sliceBytes (utf8Encode (cps "x")) 5 0) ∧
    writeF genFail stA "/a" [98] 0 1 = writeBody stA "/a" [98] 0 := by
  obtain ⟨-, h2, -, h3, h4⟩ :=
    open_registers_handle_create_does_not.1 genHello stGen "/g" stGen2 1 (by decide)
  obtain ⟨-, h5⟩ :=
    open_registers_handle_create_does_not.2.1 stRoot "/f" 420 stRoot2 1 (by decide)
  have h6 := open_registers_handle_create_does_not.2.2.1 genFail stA "/a" 5 0 1
    (mkFile (cps "x") [("st_mode", "33188")]) (cps "x")
    (by decide) (by decide) (by decide) (by decide) (by decide)
  have h7 := open_registers_handle_create_does_not.2.2.2 genFail stA "/a" [98] 0 1
    (mkFile (cps "x") [("st_mode", "33188")]) (cps "x")
    (by decide) (by decide) (by decide) (by decide) (by decide)
  exact ⟨h2, h3 genFail "/x" [97] 0, h4 "/g", h5, h6, h7⟩

/-- Counterexample to C8 as stated: `create("/f", 0o644)` on the bare root
returns handle 1, yet the open-handle table holds no entry for it. -/
theorem create_handle_has_no_table_entry :
    createF stRoot "/f" 420 = some (stRoot2, 1) ∧
    alGet stRoot2.openFiles 1 = none ∧ stRoot2.openFiles = [] := by
  refine ⟨by decide, by decide, rfl⟩

/-- C4 at the failing input: writing the two-byte UTF-8 encoding of U+00E9
to the empty file "/f" stores exactly those two bytes as the content, yet
the call returns 1 (the length of the decoded string in characters), not
the byte count 2 the interface requires. -/
theorem write_returns_char_count_not_byte_count :
    writeF genFail stEmpty "/f" [195, 169] 0 1 = some (stEmpty2, 1) ∧
    utf8Encode (nodeContent stEmpty2 "/f") = [195, 169] ∧ (1 : Nat) ≠ 2 := by
  refine ⟨by decide, by decide, by decide⟩

/-- Counterexample to C3 as stated: with content U+00E9 (one character,
two UTF-8 bytes), writing byte 0x58 at offset 1 succeeds, but reading the
byte range [1, 2) afterwards returns 0xA9 (the second byte of the
two-byte character) instead of the written 0x58: `write` splices at
character offsets while `read` slices the byte encoding. -/
theorem write_then_read_differs_at_multibyte_content :
    writeF genFail stE "/f" [88] 1 1 = some (stE2, 1) ∧
    readF genFail stE2 "/f" 1 1 1 = some (stE2, [169]) ∧
    ([169] : List Nat) ≠ [88] := by
  refine ⟨by decide, by decide, by decide⟩

theorem spliceAt_take_length (c : List Nat) (offset : Nat) :
    ((if c.length < offset then c ++ List.replicate (offset - c.length) 32 else c).take
      offset).length = offset := by
  split
  · next h =>
      simp only [List.length_take, List.length_append, List.length_replicate]
      omega
  · next h =>
      simp only [List.length_take]
      omega

theorem spliceAt_ascii (c dstr : List Nat) (offset : Nat)
    (hc : ∀ x ∈ c, x < 128) (hd : ∀ x ∈ dstr, x < 128) :
    ∀ x ∈ spliceAt c offset dstr, x < 128 := by
  intro x hx
  unfold spliceAt at hx
  rcases List.mem_append.mp hx with hx | hx
  · have hx2 := List.mem_of_mem_take hx
    split at hx2
    · rcases List.mem_append.mp hx2 with hx3 | hx3
      · exact hc x hx3
      · rw [List.eq_of_mem_replicate hx3]
        omega
    · exact hc x hx2
  · exact hd x hx

theorem writeBody_eq (s : FS) (p : String) (node : PyNode) (data dstr : List Nat)
    (offset : Nat) (hnode : alGet s.data p = some node) (ht : node.type = "file")
    (hdec : utf8Decode data = some dstr) :
    writeBody s p data offset =
      some ({ s with data := alSet s.data p ({ node with content := some (spliceAt (nodeContentOf node) offset dstr), attrs := alSet node.attrs "st_size" (natStr (utf8Encode (spliceAt (nodeContentOf node) offset dstr)).length) }) }, dstr.length) := by
  simp only [writeBody, hnode, ht, if_true, hdec, spliceAt]

/-- C3 as amended: through an open handle, a write of ASCII data at any
offset (into ASCII content) followed by a read of the same byte range
returns exactly the written bytes; and for any valid-UTF-8 data the byte
length of the content after the write is at least `offset` plus the byte
length of the data.  The ASCII restriction on the round-trip is forced by
the source's character-offset splicing against byte-offset reads. -/
theorem write_read_roundtrip_ascii (gen : GenFun) (s : FS) (fh : Nat) (p : String)
    (node : PyNode) (c : List Nat)
    (hfh : alGet s.openFiles fh = some p)
    (hnode : alGet s.data p = some node)
    (ht : node.type = "file")
    (hc : node.content = some c) :
    (∀ data offset, (∀ x ∈ c, x < 128) → (∀ b ∈ data, b < 128) →
      ∃ s2, writeF gen s p data offset fh = some (s2, data.length) ∧
        readF gen s2 p data.length offset fh = some (s2, data)) ∧
    (∀ data dstr offset, utf8Decode data = some dstr →
      ∃ s2, writeF gen s p data offset fh = some (s2, dstr.length) ∧
        offset + data.length ≤ (utf8Encode (nodeContent s2 p)).length) := by
  have hcc : nodeContentOf node = c := by simp [nodeContentOf, hc]
  have hwf : ∀ data offset, writeF gen s p data offset fh = writeBody s p data offset := by
    intro data offset
    simp only [writeF, hfh]
  constructor
  · intro data offset hca hda
    have hdec : utf8Decode data = some data := utf8Decode_ascii data hda
    have hw := writeBody_eq s p node data data offset hnode ht hdec
    rw [hcc] at hw
    refine ⟨_, by rw [hwf, hw], ?_⟩
    have hascii : ∀ x ∈ spliceAt c offset data, x < 128 := spliceAt_ascii c data offset hca hda
    simp only [readF, hfh, nodeContent, alGet_alSet_self, nodeContentOf, Option.getD_some,
      sliceBytes_eq]
    rw [utf8Encode_ascii _ hascii]
    unfold spliceAt
    have hdropA : ∀ A : List Nat, A.length = offset → (A ++ data).drop offset = data := by
      intro A hA
      rw [← hA]
      exact List.drop_left _ _
    rw [hdropA _ (spliceAt_take_length c offset), List.take_length]
  · intro data dstr offset hdec
    have hw := writeBody_eq s p node data dstr offset hnode ht hdec
    rw [hcc] at hw
    refine ⟨_, by rw [hwf, hw], ?_⟩
    simp only [nodeContent, alGet_alSet_self, nodeContentOf, Option.getD_some]
    unfold spliceAt
    rw [utf8Encode_append]
    have h1 := spliceAt_take_length c offset
    have h2 := length_le_utf8Encode_length
      ((if c.length < offset then c ++ List.replicate (offset - c.length) 32 else c).take offset)
    have h3 := utf8Decode_length data dstr hdec
    simp only [List.length_append]
    omega

/-- Witness for C3 (amended): writing "c" at offset 5 into "ab" through
handle 1 reads back as "c" from offset 5, and the padded content is at
least 6 bytes long. -/
theorem write_read_roundtrip_ascii_witness :
    ∃ s2, writeF genFail stZ "/f" [99] 5 1 = some (s2, 1) ∧
      readF genFail s2 "/f" 1 5 1 = some (s2, [99]) :=
  (write_read_roundtrip_ascii genFail stZ 1 "/f" (mkFile (cps "ab") [("st_mode", "33188")])
    (cps "ab") (by decide) (by decide) (by decide) (by decide)).1 [99] 5
    (by decide) (by decide)

/-- Counterexample to C7 as stated: renaming "/a" to itself on a store
that holds "/a" leaves the state unchanged, so the subsequent lookup of
the old path succeeds instead of failing with NotFound. -/
theorem rename_to_same_path_keeps_node :
    renameF stA "/a" "/a" = stA ∧
    alGet (renameF stA "/a" "/a").data "/a" =
      some (mkFile (cps "x") [("st_mode", "33188")]) := by
  refine ⟨by decide, by decide⟩

/-- C7 as amended: for an existing node at `old` and a distinct target
`new` (with the degenerate self-, parent- and root-cases excluded, and
both parents present with children maps), `rename(old, new)` removes the
key `old`, inserts the same node under `new`, removes `basename(old)` from
the old parent's children map and binds `basename(new)` to `new` in the
new parent's children map, so `lookup(old)` fails and `lookup(new)` yields
the unchanged node; renaming a missing path is a no-op. -/
theorem rename_moves_node :
    (∀ (s : FS) (old new : String) node op och np nch,
      alGet s.data old = some node →
      old ≠ new →
      dirname old ≠ old → dirname old ≠ new →
      dirname new ≠ new → dirname new ≠ old →
      (dirname old = dirname new → basename old ≠ basename new) →
      alGet s.data (dirname old) = some op → op.children = some och →
      alGet s.data (dirname new) = some np → np.children = some nch →
      alGet (renameF s old new).data old = none ∧
      alGet (renameF s old new).data new = some node ∧
      (∃ op2 och2, alGet (renameF s old new).data (dirname old) = some op2 ∧
        op2.children = some och2 ∧ alGet och2 (basename old) = none) ∧
      (∃ np2 nch2, alGet (renameF s old new).data (dirname new) = some np2 ∧
        np2.children = some nch2 ∧ alGet nch2 (basename new) = some new)) ∧
    (∀ (s : FS) (old new : String), alGet s.data old = none → renameF s old new = s) := by
  constructor
  · intro s old new node op och np nch h hne hdo hdon hdn hdno hbase hop hopch hnp hnpch
    have e1 : alGet (alPop s.data old) (dirname old) = some op := by
      rw [alGet_alPop_ne _ _ _ (Ne.symm hdo), hop]
    by_cases hsame : dirname old = dirname new
    · have hdn' : dirname old ≠ new := by rw [hsame]; exact hdn
      simp only [renameF, h, e1, hopch]
      rw [← hsame]
      simp only [alGet_alSet_ne _ _ _ _ (Ne.symm hdn'), alGet_alSet_self]
      refine ⟨?_, ?_, ?_, ?_⟩
      · rw [alGet_alSet_ne _ _ _ _ hdo, alGet_alSet_ne _ _ _ _ (Ne.symm hne),
          alGet_alSet_ne _ _ _ _ hdo, alGet_alPop_self]
      · rw [alGet_alSet_ne _ _ _ _ hdn', alGet_alSet_self]
      · refine ⟨{ op with children := some (alSet (alPop och (basename old)) (basename new) new) }, alSet (alPop och (basename old)) (basename new) new, rfl, rfl, ?_⟩
        rw [alGet_alSet_ne _ _ _ _ (Ne.symm (hbase hsame)), alGet_alPop_self]
      · exact ⟨{ op with children := some (alSet (alPop och (basename old)) (basename new) new) }, alSet (alPop och (basename old)) (basename new) new, rfl, rfl, alGet_alSet_self _ _ _⟩
    · have hsame' : dirname old ≠ dirname new := hsame
      have e2 : alGet (alPop s.data old) (dirname new) = some np := by
        rw [alGet_alPop_ne _ _ _ (Ne.symm hdno), hnp]
      simp only [renameF, h, e1, hopch]
      simp only [alGet_alSet_ne _ _ _ _ (Ne.symm hdn), alGet_alSet_ne _ _ _ _ hsame', e2, hnpch]
      refine ⟨?_, ?_, ?_, ?_⟩
      · rw [alGet_alSet_ne _ _ _ _ hdno, alGet_alSet_ne _ _ _ _ (Ne.symm hne),
          alGet_alSet_ne _ _ _ _ hdo, alGet_alPop_self]
      · rw [alGet_alSet_ne _ _ _ _ hdn, alGet_alSet_self]
      · refine ⟨{ op with children := some (alPop och (basename old)) }, alPop och (basename old), ?_, rfl, ?_⟩
        · rw [alGet_alSet_ne _ _ _ _ (Ne.symm hsame'), alGet_alSet_ne _ _ _ _ (Ne.symm hdon),
            alGet_alSet_self]
        · rw [alGet_alPop_self]
      · exact ⟨{ np with children := some (alSet nch (basename new) new) }, alSet nch (basename new) new, alGet_alSet_self _ _ _, rfl, alGet_alSet_self _ _ _⟩
  · intro s old new h
    simp only [renameF, h]

/-- Witness for C7 (amended): renaming "/a/f" to "/b/g" in a two-directory
store removes the old key and re-binds the node under the new key. -/
theorem rename_moves_node_witness :
    alGet (renameF stTwo "/a/f" "/b/g").data "/a/f" = none ∧
    alGet (renameF stTwo "/a/f" "/b/g").data "/b/g" =
      some (mkFile (cps "hi") [("st_mode", "33188")]) := by
  obtain ⟨h1, h2, -, -⟩ := rename_moves_node.1 stTwo "/a/f" "/b/g"
    (mkFile (cps "hi") [("st_mode", "33188")]) (mkDir [("f", "/a/f")]) [("f", "/a/f")]
    (mkDir []) []
    (by decide) (by decide) (by decide) (by decide) (by decide) (by decide) (by decide)
    (by decide) (by decide) (by decide) (by decide)
  exact ⟨h1, h2⟩

theorem resolveGo_eq_findSome (extract : List Nat → List Nat)
    (tree : List (String × PyNode)) (path : String) :
    ∀ dirs, resolveGo extract tree path dirs =
      (dirs.findSome? (levelHit extract tree path)).getD defaultTemplate := by
  intro dirs
  induction dirs with
  | nil => simp [resolveGo, List.findSome?_nil]
  | cons d rest ih =>
      simp only [resolveGo, List.findSome?_cons, levelHit]
      cases hA : (if joinPath d ".llmfs.prompt" ≠ path then
          alGet tree (joinPath d ".llmfs.prompt") else none) with
      | some n => simp [hA]
      | none =>
          simp only [hA]
          cases hB : (if joinPath d ".prompt" ≠ path then
              alGet tree (joinPath d ".prompt") else none) with
          | some n => simp [hB]
          | none => simp [hB, ih]

/-- C2: configuration resolution walks the ancestor directories nearest to
farthest (the `ancestorChain` is built nearest-first); the result is the
first level's hit, where a level's hit is convention A's
(`.llmfs.prompt`) value if such a node exists there, else convention B's
(`.prompt`) value, and the fixed default template when no level hits — so
a convention-B match at a closer ancestor beats a convention-A match at a
farther one, as the concrete instances show: with convention A at
"/project" and convention B at "/project/subdir", a file in
"/project/subdir" resolves to the subdir `.prompt` value, while a tree
with no configuration resolves to the default template. -/
theorem resolveConfig_nearest_ancestor :
    (∀ (extract : List Nat → List Nat) (tree : List (String × PyNode)) (path : String),
      resolveConfig extract tree path =
        (((ancestorChain (dirname path).length (dirname path)).findSome?
          (levelHit extract tree path)).getD defaultTemplate)) ∧
    resolveConfig id promptTree "/project/subdir/file.py" = cps "Subdir prompt" ∧
    resolveConfig id [] "/x/y.txt" = defaultTemplate := by
  refine ⟨fun extract tree path => resolveGo_eq_findSome extract tree path _, ?_, ?_⟩
  · decide
  · decide
